import Mathlib

/-!
Verification of the results store of pytest-failure-tracker
(src/pytest_failure_tracker/db.py, class TestResultsDB).

The DuckDB-backed store is shallowly embedded as follows.

State: the two tables test_runs and test_results are lists of rows in
insertion (log) order, together with the two sequences run_id_seq and
result_id_seq (modelled as the last value handed out) and a flag recording
whether the schema objects exist at the storage location.

Values: SQL TIMESTAMP values are modelled as natural numbers supplied
explicitly at each call (the value CURRENT_TIMESTAMP has at that call);
SQL DOUBLE values are modelled as rationals, so the arithmetic of the
claims is exact rather than IEEE-754; SQL NULL for VARCHAR columns is
Option.none.  Python None arguments are Option.none.

Queries: a query without ORDER BY is modelled as returning rows in log
order (for GROUP BY: groups in order of first occurrence of the key);
ORDER BY is modelled as a stable sort over that order, which is the
documented behaviour of the sorting routine of the underlying engine.
A Python dict is modelled as an association list in which inserting an
existing key replaces its value in place and a new key is appended,
matching the insertion-order semantics of dict.
-/

namespace PytestFailureTracker

/-- Status strings accepted by the CHECK constraint of test_results:
CHECK (status IN ('passed', 'failed', 'skipped')). -/
def validStatus (s : String) : Bool :=
  s == "passed" || s == "failed" || s == "skipped"

/-- One row of the test_runs table. -/
structure RunRow where
  run_id : Nat
  timestamp : Nat
  pytest_version : String
  python_version : String
deriving DecidableEq

/-- One row of the test_results table.  error_message and error_traceback
are nullable VARCHAR columns. -/
structure ResultRow where
  result_id : Nat
  run_id : Nat
  test_id : String
  status : String
  duration : Rat
  error_message : Option String
  error_traceback : Option String
  timestamp : Nat
deriving DecidableEq

/-- The persistent state of one storage location: both tables in log
order, both sequences (last value handed out), and whether the schema
objects exist. -/
structure DBState where
  schemaReady : Bool
  runs : List RunRow
  results : List ResultRow
  runSeq : Nat
  resultSeq : Nat
deriving DecidableEq

/-- A storage location that has never been initialized. -/
def emptyDB : DBState :=
  { schemaReady := false, runs := [], results := [], runSeq := 0, resultSeq := 0 }

/-- TestResultsDB._init_tables: CREATE SEQUENCE IF NOT EXISTS (twice),
CREATE TABLE IF NOT EXISTS (twice).  When the schema objects exist
nothing is dropped, reset or rewritten; when they are absent they are
created empty with fresh sequences.  The CREATE OR REPLACE VIEW
test_summary defines a derived view only; it stores no data and is
modelled below by the aggregation functions. -/
def initTables (d : DBState) : DBState :=
  if d.schemaReady then d else { emptyDB with schemaReady := true }

/-- TestResultsDB.start_test_run: INSERT INTO test_runs with
nextval run_id_seq and CURRENT_TIMESTAMP, RETURNING run_id. -/
def startTestRun (d : DBState) (pytest_version python_version : String)
    (now : Nat) : DBState × Nat :=
  let rid := d.runSeq + 1
  let row : RunRow :=
    { run_id := rid, timestamp := now,
      pytest_version := pytest_version, python_version := python_version }
  ({ d with runs := d.runs ++ [row], runSeq := rid }, rid)

/-- Errors surfaced by the storage engine. -/
inductive DBError where
  | constraintViolation : String → DBError
deriving DecidableEq

/-- The row one insert appends: the next result_id from the sequence,
the caller arguments and the CURRENT_TIMESTAMP value. -/
def newResultRow (d : DBState) (run_id : Nat) (test_id : Option String)
    (status : String) (duration : Rat)
    (error_message error_traceback : Option String) (now : Nat) : ResultRow :=
  { result_id := d.resultSeq + 1, run_id := run_id,
    test_id := test_id.getD "", status := status, duration := duration,
    error_message := error_message, error_traceback := error_traceback,
    timestamp := now }

/-- TestResultsDB.add_test_result: INSERT INTO test_results with
nextval result_id_seq and CURRENT_TIMESTAMP.  The insert fails with a
constraint violation exactly when the FOREIGN KEY on run_id, the
NOT NULL on test_id, or the CHECK on status is violated.  A NOT NULL
column rejects only NULL: the empty string is a legal test_id. -/
def addTestResult (d : DBState) (run_id : Nat) (test_id : Option String)
    (status : String) (duration : Rat)
    (error_message error_traceback : Option String) (now : Nat) :
    Except DBError DBState :=
  if ¬ d.runs.any (fun r => r.run_id == run_id) then
    .error (.constraintViolation "FOREIGN KEY: run_id references no test_runs row")
  else if test_id.isNone then
    .error (.constraintViolation "NOT NULL: test_id")
  else if ¬ validStatus status then
    .error (.constraintViolation "CHECK: status")
  else
    let row := newResultRow d run_id test_id status duration
      error_message error_traceback now
    .ok { d with results := d.results ++ [row], resultSeq := d.resultSeq + 1 }

/-- All test_results rows of one test_id, in log order
(WHERE tr.test_id = tid). -/
def resultsFor (d : DBState) (tid : String) : List ResultRow :=
  d.results.filter (fun r => r.test_id == tid)

/-- test_summary.total_runs: COUNT(*) of the group of tid. -/
def totalRuns (d : DBState) (tid : String) : Nat :=
  (resultsFor d tid).length

/-- test_summary.passes: COUNT(*) FILTER (WHERE status = 'passed'). -/
def passes (d : DBState) (tid : String) : Nat :=
  (resultsFor d tid).countP (fun r => r.status == "passed")

/-- test_summary.failures: COUNT(*) FILTER (WHERE status = 'failed'). -/
def failures (d : DBState) (tid : String) : Nat :=
  (resultsFor d tid).countP (fun r => r.status == "failed")

/-- test_summary.skips: COUNT(*) FILTER (WHERE status = 'skipped'). -/
def skips (d : DBState) (tid : String) : Nat :=
  (resultsFor d tid).countP (fun r => r.status == "skipped")

/-- test_summary.failure_rate: CAST(failures AS DOUBLE) / NULLIF(COUNT(*), 0).
Inside a group COUNT(*) is at least 1, so the NULLIF branch
(which would make the whole expression NULL) is modelled by the value 0
for the empty group, a case no group of the view ever produces. -/
def failureRate (d : DBState) (tid : String) : Rat :=
  if totalRuns d tid = 0 then 0
  else (failures d tid : Rat) / (totalRuns d tid : Rat)

/-- test_summary.last_failure: MAX(tr.timestamp) FILTER (WHERE status = 'failed'),
NULL when the group holds no failed row. -/
def lastFailure (d : DBState) (tid : String) : Option Nat :=
  (((resultsFor d tid).filter (fun r => r.status == "failed")).map
    (fun r => r.timestamp)).max?

/-- Distinct test_id values of test_results in order of first occurrence
(the modelled group order of GROUP BY tr.test_id). -/
def testIdsAux : List ResultRow → List String → List String
  | [], _ => []
  | r :: rs, seen =>
    if r.test_id ∈ seen then testIdsAux rs seen
    else r.test_id :: testIdsAux rs (r.test_id :: seen)

/-- Distinct test_id values of test_results in order of first occurrence. -/
def testIds (d : DBState) : List String :=
  testIdsAux d.results []

/-- Stable insertion into a list already sorted by timestamp descending:
the new row is placed after every row with a strictly larger timestamp and
before every row with an equal or smaller one.  Folding this over the log
from the right yields exactly the stable sort the engine applies for
ORDER BY timestamp DESC (equal keys keep log order). -/
def insertByTsDesc (r : ResultRow) : List ResultRow → List ResultRow
  | [] => [r]
  | x :: xs =>
    if r.timestamp < x.timestamp then x :: insertByTsDesc r xs
    else r :: x :: xs

/-- Stable sort of rows by timestamp descending (ORDER BY timestamp DESC). -/
def sortByTsDesc (l : List ResultRow) : List ResultRow :=
  l.foldr insertByTsDesc []

/-- TestResultsDB.get_test_history before projection: the rows of
SELECT ... FROM test_results WHERE test_id = ? ORDER BY timestamp DESC
LIMIT ?. -/
def getTestHistoryRows (d : DBState) (tid : String) (limit : Nat) :
    List ResultRow :=
  (sortByTsDesc (resultsFor d tid)).take limit

/-- One tuple returned by get_test_history:
(timestamp, status, duration, error_message). -/
structure HistoryEntry where
  timestamp : Nat
  status : String
  duration : Rat
  error_message : Option String
deriving DecidableEq

/-- The projection get_test_history applies to each row. -/
def toHistoryEntry (r : ResultRow) : HistoryEntry :=
  { timestamp := r.timestamp, status := r.status, duration := r.duration,
    error_message := r.error_message }

/-- TestResultsDB.get_test_history. -/
def getTestHistory (d : DBState) (tid : String) (limit : Nat) :
    List HistoryEntry :=
  (getTestHistoryRows d tid limit).map toHistoryEntry

/-- One row returned by get_flaky_tests:
(test_id, total_runs, passes, failures, failure_rate). -/
structure FlakyRow where
  test_id : String
  total_runs : Nat
  passes : Nat
  failures : Nat
  failure_rate : Rat
deriving DecidableEq

/-- The WHERE clause of get_flaky_tests on the group of tid:
total_runs >= min_runs AND passes > 0 AND failures > 0 AND
CAST(failures AS DOUBLE) / NULLIF(total_runs, 0) >= min_failure_rate. -/
def flakyCond (d : DBState) (tid : String) (minRuns : Nat) (minRate : Rat) :
    Bool :=
  decide (minRuns ≤ totalRuns d tid ∧ 0 < passes d tid ∧ 0 < failures d tid ∧
    minRate ≤ failureRate d tid)

/-- The SELECT list of get_flaky_tests for the group of tid. -/
def mkFlakyRow (d : DBState) (tid : String) : FlakyRow :=
  { test_id := tid, total_runs := totalRuns d tid, passes := passes d tid,
    failures := failures d tid, failure_rate := failureRate d tid }

/-- Stable insertion for ORDER BY failure_rate DESC. -/
def insertByRateDesc (r : FlakyRow) : List FlakyRow → List FlakyRow
  | [] => [r]
  | x :: xs =>
    if r.failure_rate < x.failure_rate then x :: insertByRateDesc r xs
    else r :: x :: xs

/-- Stable sort of flaky rows by failure_rate descending. -/
def sortByRateDesc (l : List FlakyRow) : List FlakyRow :=
  l.foldr insertByRateDesc []

/-- TestResultsDB.get_flaky_tests: SELECT ... FROM test_summary WHERE
(flaky condition) ORDER BY failure_rate DESC, with the default arguments
min_runs = 2 and min_failure_rate = 0.1 supplied by generate_summary_json. -/
def getFlakyTests (d : DBState) (minRuns : Nat) (minRate : Rat) :
    List FlakyRow :=
  sortByRateDesc
    (((testIds d).filter (fun tid => flakyCond d tid minRuns minRate)).map
      (fun tid => mkFlakyRow d tid))

/-- The last_failure object of one report entry. -/
structure LastFailureInfo where
  timestamp : Nat
  traceback : Option (List String)
  error_message : Option String
deriving DecidableEq

/-- The flaky_details object of one report entry. -/
structure FlakyDetails where
  failure_rate : Rat
  total_failures : Nat
  total_runs : Nat
deriving DecidableEq

/-- The analytics.performance object of one report entry. -/
structure PerfStats where
  avg_duration : Rat
  min_duration : Rat
  max_duration : Rat
deriving DecidableEq

/-- The analytics object of one report entry.  flaky_details and
performance are keys the Python code only sometimes adds to the dict,
hence Option. -/
structure Analytics where
  total_runs : Nat
  is_flaky : Bool
  avg_duration : Rat
  flaky_details : Option FlakyDetails
  performance : Option PerfStats
deriving DecidableEq

/-- One value of the mapping returned by generate_summary_json. -/
structure TestReport where
  passes : Nat
  failures : Nat
  skips : Nat
  failure_rate : Rat
  last_failure : Option LastFailureInfo
  history : List HistoryEntry
  analytics : Analytics
deriving DecidableEq

/-- row[7].split(chr 10) if row[7] else None: a NULL or empty traceback
gives None (the empty string is falsy in Python), otherwise the list of
lines. -/
def splitTraceback (tb : Option String) : Option (List String) :=
  match tb with
  | none => none
  | some s => if s = "" then none else some (s.splitOn "\n")

/-- The rows of test_results the LEFT JOIN of generate_summary_json
matches for the group of tid: every row (of any status) whose test_id is
tid and whose timestamp equals the last_failure of the group.  Empty when
last_failure is NULL (the join condition is then never true). -/
def joinRowsFor (d : DBState) (tid : String) : List ResultRow :=
  match lastFailure d tid with
  | none => []
  | some lf =>
    d.results.filter (fun r => r.test_id == tid && r.timestamp == lf)

/-- The join row whose values survive in the dict: the loop of
generate_summary_json rebuilds results[test_id] once per join row, so the
last matching row in the modelled row order wins.  None when the LEFT
JOIN produced a single row with NULL right-hand columns. -/
def chosenJoinRow (d : DBState) (tid : String) : Option ResultRow :=
  (joinRowsFor d tid).getLast?

/-- The dict value one iteration of the summary loop builds for tid from
the view columns of its group and the joined row jr.  history is the
empty list and analytics carries is_flaky = False and avg_duration = 0.0,
both annotated in the source as to be updated below. -/
def entryFromRow (d : DBState) (tid : String) (jr : Option ResultRow) :
    TestReport :=
  { passes := passes d tid, failures := failures d tid, skips := skips d tid,
    failure_rate := failureRate d tid,
    last_failure :=
      match lastFailure d tid with
      | none => none
      | some lf =>
        some { timestamp := lf,
               traceback := splitTraceback (jr.bind (fun r => r.error_traceback)),
               error_message := jr.bind (fun r => r.error_message) },
    history := [],
    analytics :=
      { total_runs := totalRuns d tid, is_flaky := false, avg_duration := 0,
        flaky_details := none, performance := none } }

/-- The rows of the summary query that carry the group of tid: the LEFT
JOIN emits one row with NULL right-hand columns when no test_results row
matches, and one row per matching test_results row (in log order)
otherwise. -/
def groupRows (d : DBState) (tid : String) : List (String × Option ResultRow) :=
  match joinRowsFor d tid with
  | [] => [(tid, none)]
  | r :: rs => (r :: rs).map (fun q => (tid, some q))

/-- The rows of the summary query of generate_summary_json, as pairs of
the group key and the joined test_results row (none for the NULL row a
LEFT JOIN emits when no row matches): groups in first-occurrence order,
join matches in log order. -/
def summaryRows (d : DBState) : List (String × Option ResultRow) :=
  (testIds d).flatMap (fun tid => groupRows d tid)

/-- Python dict assignment results[k] = v on an insertion-ordered
association list: an existing key keeps its position and gets the new
value, a new key is appended. -/
def dictInsert (k : String) (v : TestReport) :
    List (String × TestReport) → List (String × TestReport)
  | [] => [(k, v)]
  | (k', v') :: rest =>
    if k' = k then (k, v) :: rest else (k', v') :: dictInsert k v rest

/-- The first loop of generate_summary_json: for row in summary,
results[test_id] = entry built from that row. -/
def summaryLoop (d : DBState) : List (String × TestReport) :=
  (summaryRows d).foldl
    (fun acc p => dictInsert p.1 (entryFromRow d p.1 p.2) acc) []

/-- The second loop of generate_summary_json: for test_id in results,
results[test_id]["history"] = get_test_history(test_id, limit=5). -/
def addHistoryStage (d : DBState) (rep : List (String × TestReport)) :
    List (String × TestReport) :=
  rep.map (fun p => (p.1, { p.2 with history := getTestHistory d p.1 5 }))

/-- Python dict update results[k] = f(results[k]) guarded by
if k in results: an absent key leaves the dict unchanged. -/
def updateEntry (k : String) (f : TestReport → TestReport) :
    List (String × TestReport) → List (String × TestReport)
  | [] => []
  | (k', v) :: rest =>
    if k' = k then (k', f v) :: rest else (k', v) :: updateEntry k f rest

/-- The update the flaky loop applies to the entry of a flaky test:
is_flaky = True and flaky_details from the flaky row (float(test[4]),
test[3], test[1]). -/
def flakyUpdate (fr : FlakyRow) (e : TestReport) : TestReport :=
  let det : FlakyDetails :=
    { failure_rate := fr.failure_rate, total_failures := fr.failures,
      total_runs := fr.total_runs }
  let a : Analytics :=
    { e.analytics with is_flaky := true, flaky_details := some det }
  { e with analytics := a }

/-- The third loop of generate_summary_json: for test in
get_flaky_tests(), if test_id in results, set is_flaky and flaky_details. -/
def addFlakyStage (d : DBState) (rep : List (String × TestReport)) :
    List (String × TestReport) :=
  (getFlakyTests d 2 (1/10)).foldl
    (fun acc fr => updateEntry fr.test_id (flakyUpdate fr) acc) rep

/-- Sum of the durations of a list of rows. -/
def sumDurations (l : List ResultRow) : Rat :=
  (l.map (fun r => r.duration)).sum

/-- AVG(duration) of a group (the group is never empty). -/
def avgDuration (d : DBState) (tid : String) : Rat :=
  sumDurations (resultsFor d tid) / (totalRuns d tid : Rat)

/-- MIN(duration) of a group (0 only for the empty group, which no group
of the query ever is). -/
def minDuration (d : DBState) (tid : String) : Rat :=
  (((resultsFor d tid).map (fun r => r.duration)).min?).getD 0

/-- MAX(duration) of a group. -/
def maxDuration (d : DBState) (tid : String) : Rat :=
  (((resultsFor d tid).map (fun r => r.duration)).max?).getD 0

/-- The performance object the fourth loop builds for tid. -/
def perfStatsFor (d : DBState) (tid : String) : PerfStats :=
  { avg_duration := avgDuration d tid, min_duration := minDuration d tid,
    max_duration := maxDuration d tid }

/-- The update the performance loop applies to one entry. -/
def perfUpdate (p : PerfStats) (e : TestReport) : TestReport :=
  let a : Analytics := { e.analytics with performance := some p }
  { e with analytics := a }

/-- The fourth loop of generate_summary_json: the rows of
SELECT test_id, AVG(duration), MIN(duration), MAX(duration) FROM
test_results GROUP BY test_id, then for each row, if test_id in results,
set analytics["performance"]. -/
def addPerfStage (d : DBState) (rep : List (String × TestReport)) :
    List (String × TestReport) :=
  (testIds d).foldl
    (fun acc tid => updateEntry tid (fun e => perfUpdate (perfStatsFor d tid) e) acc)
    rep

/-- TestResultsDB.generate_summary_json: the four loops in source order. -/
def generateSummaryJson (d : DBState) : List (String × TestReport) :=
  addPerfStage d (addFlakyStage d (addHistoryStage d (summaryLoop d)))

/-- Lookup of one key of the report mapping. -/
def reportGet (rep : List (String × TestReport)) (tid : String) :
    Option TestReport :=
  (rep.find? (fun p => p.1 == tid)).map (fun p => p.2)

/-- One call the host runner makes into the storage engine.  Timestamps
are the CURRENT_TIMESTAMP values of the calls. -/
inductive Op where
  | startRun (pytest_version python_version : String) (now : Nat)
  | recordResult (run_id : Nat) (test_id : Option String) (status : String)
      (duration : Rat) (error_message error_traceback : Option String)
      (now : Nat)

/-- Effect of one call on the store; a call that fails with a constraint
violation appends nothing. -/
def applyOp (d : DBState) : Op → DBState
  | .startRun pv pyv now => (startTestRun d pv pyv now).1
  | .recordResult rid tid st dur em tb now =>
    match addTestResult d rid tid st dur em tb now with
    | .ok d' => d'
    | .error _ => d

/-- The store reached from a fresh location by a sequence of calls. -/
def runOps (ops : List Op) : DBState :=
  ops.foldl applyOp (initTables emptyDB)

/-- The entry of the summary loop for tid with its history filled in. -/
def histEntry (d : DBState) (tid : String) : TestReport :=
  { entryFromRow d tid (chosenJoinRow d tid) with
    history := getTestHistory d tid 5 }

/-- The value generate_summary_json leaves in the mapping for a test_id
that has at least one result: the entry of the summary loop (built from
the last join row), then history filled in, then the flaky update when
the default flaky condition holds, then the performance update. -/
def finalEntry (d : DBState) (tid : String) : TestReport :=
  perfUpdate (perfStatsFor d tid)
    (if flakyCond d tid 2 (1/10)
     then flakyUpdate (mkFlakyRow d tid) (histEntry d tid)
     else histEntry d tid)

/-- A run row shared by the concrete stores below. -/
def wRun : RunRow :=
  { run_id := 1, timestamp := 0, pytest_version := "7.0.0",
    python_version := "3.9.0" }

/-- A concrete store mirroring the fixture of tests/test_db.py: one
stable test, one flaky test (passed, failed, passed), one consistently
failing test. -/
def wdb : DBState :=
  { schemaReady := true,
    runs := [wRun],
    results := [
      { result_id := 1, run_id := 1, test_id := "test_stable",
        status := "passed", duration := 1, error_message := none,
        error_traceback := none, timestamp := 10 },
      { result_id := 2, run_id := 1, test_id := "test_flaky",
        status := "passed", duration := 2, error_message := none,
        error_traceback := none, timestamp := 11 },
      { result_id := 3, run_id := 1, test_id := "test_flaky",
        status := "failed", duration := 4,
        error_message := some "AssertionError", error_traceback := none,
        timestamp := 12 },
      { result_id := 4, run_id := 1, test_id := "test_flaky",
        status := "passed", duration := 3, error_message := none,
        error_traceback := none, timestamp := 13 },
      { result_id := 5, run_id := 1, test_id := "test_failing",
        status := "failed", duration := 5, error_message := some "ValueError",
        error_traceback := none, timestamp := 14 }
    ],
    runSeq := 1, resultSeq := 5 }

/-- A concrete sequence of calls: one run, then results for test t
(passed, failed, one rejected status, one rejected run_id, one rejected
NULL test_id) and one skipped result for test u. -/
def wOps : List Op := [
  .startRun "7.0.0" "3.9.0" 1,
  .recordResult 1 (some "t") "passed" 1 none none 2,
  .recordResult 1 (some "t") "failed" 1 (some "boom") none 3,
  .recordResult 1 (some "t") "bogus" 1 none none 4,
  .recordResult 2 (some "t") "passed" 1 none none 5,
  .recordResult 1 none "passed" 1 none none 6,
  .recordResult 1 (some "u") "skipped" 1 none none 7
]

/-- A failed result for test t at timestamp 5 with an error message. -/
def c2fail : ResultRow :=
  { result_id := 1, run_id := 1, test_id := "t", status := "failed",
    duration := 1, error_message := some "boom",
    error_traceback := some "tb", timestamp := 5 }

/-- A passed result for test t at the same timestamp 5, recorded after
the failed one. -/
def c2pass : ResultRow :=
  { result_id := 2, run_id := 1, test_id := "t", status := "passed",
    duration := 1, error_message := none, error_traceback := none,
    timestamp := 5 }

/-- A store in which the unique failed result of test t shares its
timestamp with a later passed result. -/
def c2db : DBState :=
  { schemaReady := true, runs := [wRun], results := [c2fail, c2pass],
    runSeq := 1, resultSeq := 2 }

/-- Two results of test t with equal timestamps, inserted with
result_id 1 then result_id 2. -/
def c4row1 : ResultRow :=
  { result_id := 1, run_id := 1, test_id := "t", status := "passed",
    duration := 1, error_message := none, error_traceback := none,
    timestamp := 5 }

/-- Second result of test t at the same timestamp as c4row1. -/
def c4row2 : ResultRow :=
  { result_id := 2, run_id := 1, test_id := "t", status := "failed",
    duration := 2, error_message := some "e", error_traceback := none,
    timestamp := 5 }

/-- A store holding the two tied results of test t. -/
def c4db : DBState :=
  { schemaReady := true, runs := [wRun], results := [c4row1, c4row2],
    runSeq := 1, resultSeq := 2 }

/-- A store with one run and no results yet. -/
def c5db : DBState :=
  { schemaReady := true, runs := [wRun], results := [], runSeq := 1,
    resultSeq := 0 }

/-- The row an insert with the empty-string test_id appends to c5db. -/
def c5newRow : ResultRow :=
  { result_id := 1, run_id := 1, test_id := "", status := "passed",
    duration := 1, error_message := none, error_traceback := none,
    timestamp := 7 }

/-- c5db after the empty-string insert. -/
def c5dbAfter : DBState :=
  { c5db with results := [c5newRow], resultSeq := 1 }

/-- An old passed result of test t at timestamp 5. -/
def c6old : ResultRow :=
  { result_id := 1, run_id := 1, test_id := "t", status := "passed",
    duration := 1, error_message := none, error_traceback := none,
    timestamp := 5 }

/-- A store holding only c6old. -/
def c6db : DBState :=
  { schemaReady := true, runs := [wRun], results := [c6old], runSeq := 1,
    resultSeq := 1 }

/-- The failed result inserted into c6db at the tied timestamp 5. -/
def c6new : ResultRow :=
  { result_id := 2, run_id := 1, test_id := "t", status := "failed",
    duration := 2, error_message := some "boom", error_traceback := none,
    timestamp := 5 }

/-- c6db after inserting c6new. -/
def c6dbAfter : DBState :=
  { c6db with results := [c6old, c6new], resultSeq := 2 }

/-- The failed result inserted into c6db at the fresh timestamp 9. -/
def c6new9 : ResultRow :=
  { result_id := 2, run_id := 1, test_id := "t", status := "failed",
    duration := 2, error_message := some "boom", error_traceback := none,
    timestamp := 9 }

/-- c6db after inserting c6new9. -/
def c6dbAfter9 : DBState :=
  { c6db with results := [c6old, c6new9], resultSeq := 2 }

/-- Membership in the accumulator-based list of distinct test_id values. -/
theorem mem_testIdsAux (rs : List ResultRow) (seen : List String) (tid : String) :
    tid ∈ testIdsAux rs seen ↔ (∃ r ∈ rs, r.test_id = tid) ∧ tid ∉ seen := by
  induction rs generalizing seen with
  | nil => simp [testIdsAux]
  | cons r rs ih =>
    simp only [testIdsAux]
    by_cases hm : r.test_id ∈ seen
    · rw [if_pos hm, ih]
      constructor
      · rintro ⟨⟨q, hq, hqt⟩, hns⟩
        exact ⟨⟨q, List.mem_cons_of_mem _ hq, hqt⟩, hns⟩
      · rintro ⟨⟨q, hq, hqt⟩, hns⟩
        rcases List.mem_cons.1 hq with h | h
        · subst h; exact absurd (hqt ▸ hm) hns
        · exact ⟨⟨q, h, hqt⟩, hns⟩
    · rw [if_neg hm]
      rw [List.mem_cons, ih]
      constructor
      · rintro (h | ⟨⟨q, hq, hqt⟩, hns⟩)
        · subst h
          exact ⟨⟨r, List.mem_cons_self _ _, rfl⟩, hm⟩
        · refine ⟨⟨q, List.mem_cons_of_mem _ hq, hqt⟩, fun hc => hns ?_⟩
          exact List.mem_cons_of_mem _ hc
      · rintro ⟨⟨q, hq, hqt⟩, hseen⟩
        rcases List.mem_cons.1 hq with h | h
        · subst h; exact Or.inl hqt.symm
        · by_cases he : tid = r.test_id
          · exact Or.inl he
          · refine Or.inr ⟨⟨q, h, hqt⟩, fun hc => ?_⟩
            rcases List.mem_cons.1 hc with h1 | h1
            · exact he h1
            · exact hseen h1

/-- The distinct test_id list has no duplicates. -/
theorem nodup_testIdsAux (rs : List ResultRow) (seen : List String) :
    (testIdsAux rs seen).Nodup := by
  induction rs generalizing seen with
  | nil => simp [testIdsAux]
  | cons r rs ih =>
    simp only [testIdsAux]
    by_cases hm : r.test_id ∈ seen
    · rw [if_pos hm]; exact ih seen
    · rw [if_neg hm]
      refine List.nodup_cons.2 ⟨fun hc => ?_, ih _⟩
      exact ((mem_testIdsAux rs _ _).1 hc).2 (List.mem_cons_self _ _)

/-- A test_id is a group of the view exactly when it has a result. -/
theorem mem_testIds (d : DBState) (tid : String) :
    tid ∈ testIds d ↔ ∃ r ∈ d.results, r.test_id = tid := by
  rw [testIds, mem_testIdsAux]
  simp

/-- testIds has no duplicates. -/
theorem testIds_nodup (d : DBState) : (testIds d).Nodup :=
  nodup_testIdsAux d.results []

/-- Membership across one stable insertion by timestamp. -/
theorem mem_insertByTsDesc {x r : ResultRow} {l : List ResultRow} :
    x ∈ insertByTsDesc r l ↔ x = r ∨ x ∈ l := by
  induction l with
  | nil => simp [insertByTsDesc]
  | cons y ys ih =>
    simp only [insertByTsDesc]
    by_cases h : r.timestamp < y.timestamp
    · rw [if_pos h]
      rw [List.mem_cons, ih, List.mem_cons]
      tauto
    · rw [if_neg h]
      simp [List.mem_cons]

/-- Unfolding equation of the stable sort. -/
theorem sortByTsDesc_cons (y : ResultRow) (ys : List ResultRow) :
    sortByTsDesc (y :: ys) = insertByTsDesc y (sortByTsDesc ys) := rfl

/-- Membership across the stable sort by timestamp. -/
theorem mem_sortByTsDesc {x : ResultRow} {l : List ResultRow} :
    x ∈ sortByTsDesc l ↔ x ∈ l := by
  induction l with
  | nil => simp [sortByTsDesc]
  | cons y ys ih =>
    rw [sortByTsDesc_cons, mem_insertByTsDesc, ih, List.mem_cons]

/-- Stable insertion preserves the sortedness invariant. -/
theorem pairwise_insertByTsDesc {r : ResultRow} {l : List ResultRow}
    (h : List.Pairwise (fun a b => b.timestamp ≤ a.timestamp) l) :
    List.Pairwise (fun a b => b.timestamp ≤ a.timestamp)
      (insertByTsDesc r l) := by
  induction l with
  | nil => simp [insertByTsDesc]
  | cons y ys ih =>
    rw [List.pairwise_cons] at h
    obtain ⟨hy, hys⟩ := h
    simp only [insertByTsDesc]
    by_cases hlt : r.timestamp < y.timestamp
    · rw [if_pos hlt]
      rw [List.pairwise_cons]
      refine ⟨fun z hz => ?_, ih hys⟩
      rcases mem_insertByTsDesc.1 hz with rfl | hz'
      · exact le_of_lt hlt
      · exact hy z hz'
    · rw [if_neg hlt]
      rw [List.pairwise_cons]
      refine ⟨fun z hz => ?_, List.pairwise_cons.2 ⟨hy, hys⟩⟩
      rcases List.mem_cons.1 hz with rfl | hz'
      · exact le_of_not_lt hlt
      · exact le_trans (hy z hz') (le_of_not_lt hlt)

/-- The stable sort is sorted by timestamp descending. -/
theorem pairwise_sortByTsDesc (l : List ResultRow) :
    List.Pairwise (fun a b => b.timestamp ≤ a.timestamp) (sortByTsDesc l) := by
  induction l with
  | nil => simp [sortByTsDesc]
  | cons y ys ih =>
    rw [sortByTsDesc_cons]
    exact pairwise_insertByTsDesc ih

/-- Stable insertion of a row whose result_id is below every resident
one preserves the tie-order invariant: rows with equal timestamps stay in
ascending result_id order. -/
theorem pairwise_tie_insertByTsDesc {r : ResultRow} {l : List ResultRow}
    (hr : ∀ x ∈ l, r.result_id < x.result_id)
    (h : List.Pairwise
      (fun a b => a.timestamp = b.timestamp → a.result_id < b.result_id) l) :
    List.Pairwise
      (fun a b => a.timestamp = b.timestamp → a.result_id < b.result_id)
      (insertByTsDesc r l) := by
  induction l with
  | nil => simp [insertByTsDesc]
  | cons y ys ih =>
    rw [List.pairwise_cons] at h
    obtain ⟨hy, hys⟩ := h
    simp only [insertByTsDesc]
    by_cases hlt : r.timestamp < y.timestamp
    · rw [if_pos hlt]
      rw [List.pairwise_cons]
      refine ⟨fun z hz => ?_, ?_⟩
      · rcases mem_insertByTsDesc.1 hz with rfl | hz'
        · intro heq; exact absurd hlt (heq ▸ lt_irrefl _)
        · exact hy z hz'
      · exact ih (fun x hx => hr x (List.mem_cons_of_mem _ hx)) hys
    · rw [if_neg hlt]
      rw [List.pairwise_cons]
      exact ⟨fun z hz _ => hr z hz, List.pairwise_cons.2 ⟨hy, hys⟩⟩

/-- The stable sort keeps tied rows in ascending result_id order whenever
the log itself has ascending result_id order. -/
theorem pairwise_tie_sortByTsDesc {l : List ResultRow}
    (h : List.Pairwise (fun a b => a.result_id < b.result_id) l) :
    List.Pairwise
      (fun a b => a.timestamp = b.timestamp → a.result_id < b.result_id)
      (sortByTsDesc l) := by
  induction l with
  | nil => simp [sortByTsDesc]
  | cons y ys ih =>
    rw [List.pairwise_cons] at h
    obtain ⟨hy, hys⟩ := h
    rw [sortByTsDesc_cons]
    exact pairwise_tie_insertByTsDesc
      (fun x hx => hy x (mem_sortByTsDesc.1 hx)) (ih hys)

/-- Appending a strictly newest row and sorting puts that row first. -/
theorem sortByTsDesc_append_max {l : List ResultRow} {r : ResultRow}
    (h : ∀ x ∈ l, x.timestamp < r.timestamp) :
    ∃ rest, sortByTsDesc (l ++ [r]) = r :: rest := by
  induction l with
  | nil => exact ⟨[], rfl⟩
  | cons y ys ih =>
    obtain ⟨rest, hrest⟩ := ih (fun x hx => h x (List.mem_cons_of_mem _ hx))
    have hstep : sortByTsDesc ((y :: ys) ++ [r]) =
        insertByTsDesc y (sortByTsDesc (ys ++ [r])) := rfl
    rw [hstep, hrest]
    simp only [insertByTsDesc]
    rw [if_pos (h y (List.mem_cons_self _ _))]
    exact ⟨insertByTsDesc y rest, rfl⟩

/-- Lookup at the head key of the association list. -/
theorem reportGet_cons_self (k0 : String) (v0 : TestReport)
    (rest : List (String × TestReport)) :
    reportGet ((k0, v0) :: rest) k0 = some v0 := by
  rw [reportGet, List.find?_cons_of_pos _ (by simp)]
  rfl

/-- Lookup skips a head entry with a different key. -/
theorem reportGet_cons_of_ne (k0 : String) (v0 : TestReport)
    (rest : List (String × TestReport)) (k' : String) (h : k0 ≠ k') :
    reportGet ((k0, v0) :: rest) k' = reportGet rest k' := by
  rw [reportGet, List.find?_cons_of_neg _ (by simp [beq_iff_eq]; exact h)]
  rfl

/-- Looking up a key after a dict assignment. -/
theorem reportGet_dictInsert (k : String) (v : TestReport)
    (rep : List (String × TestReport)) (k' : String) :
    reportGet (dictInsert k v rep) k' =
      if k' = k then some v else reportGet rep k' := by
  induction rep with
  | nil =>
    by_cases h : k' = k
    · subst h
      rw [dictInsert, reportGet_cons_self, if_pos rfl]
    · rw [dictInsert, reportGet_cons_of_ne _ _ _ _ (fun hc => h hc.symm),
        if_neg h]
  | cons p rest ih =>
    obtain ⟨k0, v0⟩ := p
    rw [dictInsert]
    by_cases h0 : k0 = k
    · rw [if_pos h0]
      subst h0
      by_cases h : k' = k0
      · subst h
        rw [reportGet_cons_self, if_pos rfl]
      · rw [reportGet_cons_of_ne _ _ _ _ (fun hc => h hc.symm), if_neg h,
          reportGet_cons_of_ne _ _ _ _ (fun hc => h hc.symm)]
    · rw [if_neg h0]
      by_cases h : k' = k0
      · subst h
        rw [reportGet_cons_self, if_neg h0, reportGet_cons_self]
      · rw [reportGet_cons_of_ne _ _ _ _ (fun hc => h hc.symm), ih,
          reportGet_cons_of_ne _ _ _ _ (fun hc => h hc.symm)]

/-- Reassigning the same key twice keeps only the second value. -/
theorem dictInsert_dictInsert (k : String) (v v' : TestReport)
    (rep : List (String × TestReport)) :
    dictInsert k v' (dictInsert k v rep) = dictInsert k v' rep := by
  induction rep with
  | nil => simp [dictInsert]
  | cons p rest ih =>
    obtain ⟨k0, v0⟩ := p
    by_cases h0 : k0 = k
    · subst h0
      simp [dictInsert]
    · simp [dictInsert, h0, ih]

/-- Assigning a fresh key appends it. -/
theorem dictInsert_fresh (k : String) (v : TestReport)
    (rep : List (String × TestReport)) (h : k ∉ rep.map Prod.fst) :
    dictInsert k v rep = rep ++ [(k, v)] := by
  induction rep with
  | nil => rfl
  | cons p rest ih =>
    obtain ⟨k0, v0⟩ := p
    simp only [List.map_cons, List.mem_cons] at h
    push_neg at h
    rw [dictInsert, if_neg (fun hc => h.1 hc.symm)]
    rw [ih h.2]
    rfl

/-- Folding the dict assignment over the rows of one group (all sharing
the key tid) assigns the entry built from the last row of the group. -/
theorem foldl_dictInsert_groupRows (d : DBState) (tid : String)
    (r0 : ResultRow) (rs : List ResultRow)
    (acc : List (String × TestReport)) :
    ((r0 :: rs).map (fun q => (tid, some q))).foldl
      (fun acc p => dictInsert p.1 (entryFromRow d p.1 p.2) acc) acc =
    dictInsert tid (entryFromRow d tid (some (rs.getLastD r0))) acc := by
  induction rs generalizing r0 acc with
  | nil => rfl
  | cons q qs ih =>
    have hstep : ((r0 :: q :: qs).map (fun q => (tid, some q))).foldl
        (fun acc p => dictInsert p.1 (entryFromRow d p.1 p.2) acc) acc =
      ((q :: qs).map (fun q => (tid, some q))).foldl
        (fun acc p => dictInsert p.1 (entryFromRow d p.1 p.2) acc)
        (dictInsert tid (entryFromRow d tid (some r0)) acc) := rfl
    rw [hstep, ih q, dictInsert_dictInsert, List.getLastD_cons]

/-- Folding the dict assignment over all groups of a list of distinct
keys, none of which is already present, appends one entry per key. -/
theorem foldl_summary_groups (d : DBState) (tids : List String)
    (hnd : tids.Nodup) (acc : List (String × TestReport))
    (hdisj : ∀ t ∈ tids, t ∉ acc.map Prod.fst) :
    (tids.flatMap (fun tid => groupRows d tid)).foldl
      (fun acc p => dictInsert p.1 (entryFromRow d p.1 p.2) acc) acc =
    acc ++ tids.map
      (fun tid => (tid, entryFromRow d tid (chosenJoinRow d tid))) := by
  induction tids generalizing acc with
  | nil => simp
  | cons t ts ih =>
    rw [List.flatMap_cons, List.foldl_append]
    have hgroup : (groupRows d t).foldl
        (fun acc p => dictInsert p.1 (entryFromRow d p.1 p.2) acc) acc =
        dictInsert t (entryFromRow d t (chosenJoinRow d t)) acc := by
      rw [groupRows]
      cases hj : joinRowsFor d t with
      | nil =>
        rw [chosenJoinRow, hj]
        rfl
      | cons r rs =>
        rw [foldl_dictInsert_groupRows]
        rw [chosenJoinRow, hj, List.getLast?_cons, List.getLastD_eq_getLast?]
    rw [hgroup]
    rw [List.nodup_cons] at hnd
    rw [dictInsert_fresh t _ acc (hdisj t (List.mem_cons_self _ _))]
    rw [ih hnd.2]
    · simp
    · intro t' ht'
      simp only [List.map_append, List.mem_append]
      push_neg
      refine ⟨hdisj t' (List.mem_cons_of_mem _ ht'), ?_⟩
      simp only [List.map_cons, List.map_nil, List.mem_singleton]
      exact fun hc => hnd.1 (hc ▸ ht')

/-- The summary loop produces one entry per group, keyed by test_id and
built from the last join row of the group. -/
theorem summaryLoop_eq (d : DBState) :
    summaryLoop d = (testIds d).map
      (fun tid => (tid, entryFromRow d tid (chosenJoinRow d tid))) := by
  have h := foldl_summary_groups d (testIds d) (testIds_nodup d) []
    (by simp)
  simpa [summaryLoop, summaryRows] using h

/-- Lookup in a list that pairs each key with a function of it. -/
theorem reportGet_map_pair (E : String → TestReport) (tids : List String)
    (tid : String) :
    reportGet (tids.map (fun t => (t, E t))) tid =
      if tid ∈ tids then some (E tid) else none := by
  induction tids with
  | nil => simp [reportGet]
  | cons t ts ih =>
    rw [List.map_cons]
    by_cases h : t = tid
    · subst h
      rw [reportGet_cons_self, if_pos (List.mem_cons_self _ _)]
    · rw [reportGet_cons_of_ne _ _ _ _ h, ih]
      by_cases hm : tid ∈ ts
      · rw [if_pos hm, if_pos (List.mem_cons_of_mem _ hm)]
      · rw [if_neg hm,
          if_neg (fun hc => (List.mem_cons.1 hc).elim (fun h1 => h h1.symm) hm)]

/-- Lookup of one report entry after the summary loop. -/
theorem reportGet_summaryLoop (d : DBState) (tid : String) :
    reportGet (summaryLoop d) tid =
      if tid ∈ testIds d then
        some (entryFromRow d tid (chosenJoinRow d tid))
      else none := by
  rw [summaryLoop_eq]
  exact reportGet_map_pair
    (fun s => entryFromRow d s (chosenJoinRow d s)) (testIds d) tid

/-- Lookup after the history loop: the looked-up entry gets the history
of its own key, everything else is kept. -/
theorem reportGet_addHistoryStage (d : DBState)
    (rep : List (String × TestReport)) (tid : String) :
    reportGet (addHistoryStage d rep) tid =
      (reportGet rep tid).map
        (fun e => { e with history := getTestHistory d tid 5 }) := by
  induction rep with
  | nil => rfl
  | cons p rest ih =>
    obtain ⟨k, v⟩ := p
    rw [addHistoryStage, List.map_cons]
    by_cases h : k = tid
    · subst h
      rw [reportGet_cons_self, reportGet_cons_self]
      rfl
    · rw [reportGet_cons_of_ne _ _ _ _ h, reportGet_cons_of_ne _ _ _ _ h]
      exact ih

/-- Lookup after an update of one key. -/
theorem reportGet_updateEntry (k : String) (f : TestReport → TestReport)
    (rep : List (String × TestReport)) (k' : String) :
    reportGet (updateEntry k f rep) k' =
      if k' = k then (reportGet rep k').map f else reportGet rep k' := by
  induction rep with
  | nil =>
    by_cases h : k' = k
    · subst h
      rw [updateEntry, if_pos rfl]
      rfl
    · rw [updateEntry, if_neg h]
  | cons p rest ih =>
    obtain ⟨k0, v0⟩ := p
    rw [updateEntry]
    by_cases h0 : k0 = k
    · rw [if_pos h0]
      by_cases h : k' = k0
      · subst h
        rw [reportGet_cons_self, reportGet_cons_self, if_pos h0]
        rfl
      · rw [reportGet_cons_of_ne _ _ _ _ (fun hc => h hc.symm),
          reportGet_cons_of_ne _ _ _ _ (fun hc => h hc.symm)]
        by_cases hk : k' = k
        · exact absurd (hk.trans h0.symm) h
        · rw [if_neg hk]
    · rw [if_neg h0]
      by_cases h : k' = k0
      · subst h
        rw [reportGet_cons_self, if_neg h0, reportGet_cons_self]
      · rw [reportGet_cons_of_ne _ _ _ _ (fun hc => h hc.symm), ih,
          reportGet_cons_of_ne _ _ _ _ (fun hc => h hc.symm)]

/-- Lookup after folding guarded updates over rows with pairwise distinct
test_id keys: only the unique row of the key matters. -/
theorem reportGet_foldl_flaky (rows : List FlakyRow)
    (hnd : List.Pairwise (fun a b => a.test_id ≠ b.test_id) rows)
    (rep : List (String × TestReport)) (tid : String) :
    reportGet (rows.foldl
        (fun acc fr => updateEntry fr.test_id (flakyUpdate fr) acc) rep) tid =
      match rows.find? (fun fr => fr.test_id == tid) with
      | some fr => (reportGet rep tid).map (flakyUpdate fr)
      | none => reportGet rep tid := by
  induction rows generalizing rep with
  | nil => rfl
  | cons a as ih =>
    rw [List.pairwise_cons] at hnd
    obtain ⟨ha, has⟩ := hnd
    rw [List.foldl_cons, ih has]
    by_cases h : a.test_id = tid
    · have hnone : as.find? (fun fr => fr.test_id == tid) = none := by
        rw [List.find?_eq_none]
        intro x hx
        simp only [beq_iff_eq]
        exact fun hc => ha x hx (h.trans hc.symm)
      rw [hnone, List.find?_cons_of_pos _ (by simp [beq_iff_eq, h])]
      rw [reportGet_updateEntry, if_pos h.symm]
    · rw [List.find?_cons_of_neg _ (by simp [beq_iff_eq, h])]
      cases hf : as.find? (fun fr => fr.test_id == tid) with
      | none =>
        rw [reportGet_updateEntry, if_neg (fun hc => h hc.symm)]
      | some b =>
        rw [reportGet_updateEntry, if_neg (fun hc => h hc.symm)]

/-- Lookup after folding the performance updates over distinct keys. -/
theorem reportGet_foldl_perf (d : DBState) (rows : List String)
    (hnd : rows.Nodup) (rep : List (String × TestReport)) (tid : String) :
    reportGet (rows.foldl
        (fun acc t => updateEntry t
          (fun e => perfUpdate (perfStatsFor d t) e) acc) rep) tid =
      match rows.find? (fun t => t == tid) with
      | some t => (reportGet rep tid).map (perfUpdate (perfStatsFor d t))
      | none => reportGet rep tid := by
  induction rows generalizing rep with
  | nil => rfl
  | cons a as ih =>
    rw [List.nodup_cons] at hnd
    obtain ⟨ha, has⟩ := hnd
    rw [List.foldl_cons, ih has]
    by_cases h : a = tid
    · have hnone : as.find? (fun t => t == tid) = none := by
        rw [List.find?_eq_none]
        intro x hx
        simp only [beq_iff_eq]
        exact fun hc => ha (h ▸ hc ▸ hx)
      rw [hnone, List.find?_cons_of_pos _ (by simp [beq_iff_eq, h])]
      rw [reportGet_updateEntry, if_pos h.symm]
    · rw [List.find?_cons_of_neg _ (by simp [beq_iff_eq, h])]
      cases hf : as.find? (fun t => t == tid) with
      | none =>
        rw [reportGet_updateEntry, if_neg (fun hc => h hc.symm)]
      | some b =>
        rw [reportGet_updateEntry, if_neg (fun hc => h hc.symm)]

/-- Membership across one stable insertion by rate. -/
theorem mem_insertByRateDesc {x r : FlakyRow} {l : List FlakyRow} :
    x ∈ insertByRateDesc r l ↔ x = r ∨ x ∈ l := by
  induction l with
  | nil => simp [insertByRateDesc]
  | cons y ys ih =>
    simp only [insertByRateDesc]
    by_cases h : r.failure_rate < y.failure_rate
    · rw [if_pos h]
      rw [List.mem_cons, ih, List.mem_cons]
      tauto
    · rw [if_neg h]
      simp [List.mem_cons]

/-- Membership across the stable sort by rate. -/
theorem mem_sortByRateDesc {x : FlakyRow} {l : List FlakyRow} :
    x ∈ sortByRateDesc l ↔ x ∈ l := by
  induction l with
  | nil => simp [sortByRateDesc]
  | cons y ys ih =>
    have hstep : sortByRateDesc (y :: ys) =
        insertByRateDesc y (sortByRateDesc ys) := rfl
    rw [hstep, mem_insertByRateDesc, ih, List.mem_cons]

/-- Stable insertion by rate is a permutation of consing. -/
theorem perm_insertByRateDesc (r : FlakyRow) (l : List FlakyRow) :
    List.Perm (insertByRateDesc r l) (r :: l) := by
  induction l with
  | nil => rfl
  | cons y ys ih =>
    simp only [insertByRateDesc]
    by_cases h : r.failure_rate < y.failure_rate
    · rw [if_pos h]
      exact (ih.cons y).trans (List.Perm.swap r y ys)
    · rw [if_neg h]

/-- The sort by rate permutes its input. -/
theorem perm_sortByRateDesc (l : List FlakyRow) :
    List.Perm (sortByRateDesc l) l := by
  induction l with
  | nil => rfl
  | cons y ys ih =>
    have hstep : sortByRateDesc (y :: ys) =
        insertByRateDesc y (sortByRateDesc ys) := rfl
    rw [hstep]
    exact (perm_insertByRateDesc y (sortByRateDesc ys)).trans (ih.cons y)

/-- A flaky test in particular has a failed result, hence a group. -/
theorem flakyCond_mem_testIds (d : DBState) (tid : String) (minRuns : Nat)
    (minRate : Rat) (h : flakyCond d tid minRuns minRate = true) :
    tid ∈ testIds d := by
  rw [flakyCond, decide_eq_true_iff] at h
  have hpos : 0 < (resultsFor d tid).countP (fun r => r.status == "failed") :=
    h.2.2.1
  obtain ⟨r, hr, hrs⟩ := List.countP_pos_iff.1 hpos
  rw [resultsFor, List.mem_filter] at hr
  exact (mem_testIds d tid).2 ⟨r, hr.1, by simpa [beq_iff_eq] using hr.2⟩

/-- Every flaky row is the row built for its own test_id. -/
theorem getFlakyTests_row_eq (d : DBState) (minRuns : Nat) (minRate : Rat)
    (fr : FlakyRow) (h : fr ∈ getFlakyTests d minRuns minRate) :
    fr = mkFlakyRow d fr.test_id ∧
      flakyCond d fr.test_id minRuns minRate = true := by
  rw [getFlakyTests] at h
  rw [mem_sortByRateDesc] at h
  obtain ⟨t, ht, hfr⟩ := List.mem_map.1 h
  rw [List.mem_filter] at ht
  have htid : fr.test_id = t := by rw [← hfr]; rfl
  rw [htid]
  exact ⟨hfr.symm, ht.2⟩

/-- A test_id satisfying the flaky condition contributes its row. -/
theorem getFlakyTests_mem (d : DBState) (minRuns : Nat) (minRate : Rat)
    (tid : String) (h : flakyCond d tid minRuns minRate = true) :
    mkFlakyRow d tid ∈ getFlakyTests d minRuns minRate := by
  rw [getFlakyTests, mem_sortByRateDesc]
  exact List.mem_map.2 ⟨tid,
    List.mem_filter.2 ⟨flakyCond_mem_testIds d tid minRuns minRate h, h⟩, rfl⟩

/-- The keys of the flaky rows are pairwise distinct. -/
theorem flaky_keys_pairwise (d : DBState) (minRuns : Nat) (minRate : Rat) :
    List.Pairwise (fun a b => a.test_id ≠ b.test_id)
      (getFlakyTests d minRuns minRate) := by
  rw [getFlakyTests]
  have hperm := perm_sortByRateDesc
    (((testIds d).filter (fun t => flakyCond d t minRuns minRate)).map
      (fun t => mkFlakyRow d t))
  rw [hperm.pairwise_iff (fun h => h.symm)]
  rw [List.pairwise_map]
  have hnd : ((testIds d).filter
      (fun t => flakyCond d t minRuns minRate)).Nodup :=
    (testIds_nodup d).filter _
  exact hnd.imp (fun {a b} hab hc => hab hc)

/-- The first flaky row of a key is the row of that key, and exists
exactly when the flaky condition holds. -/
theorem find?_getFlakyTests (d : DBState) (minRuns : Nat) (minRate : Rat)
    (tid : String) :
    (getFlakyTests d minRuns minRate).find? (fun fr => fr.test_id == tid) =
      if flakyCond d tid minRuns minRate = true
      then some (mkFlakyRow d tid) else none := by
  by_cases hc : flakyCond d tid minRuns minRate = true
  · rw [if_pos hc]
    cases hf : (getFlakyTests d minRuns minRate).find?
        (fun fr => fr.test_id == tid) with
    | none =>
      rw [List.find?_eq_none] at hf
      exact absurd (by simp [beq_iff_eq, mkFlakyRow])
        (hf _ (getFlakyTests_mem d minRuns minRate tid hc))
    | some fr =>
      have h1 := List.find?_some hf
      have h2 := List.mem_of_find?_eq_some hf
      have h3 := getFlakyTests_row_eq d minRuns minRate fr h2
      rw [beq_iff_eq] at h1
      rw [h3.1, h1]
  · rw [if_neg hc]
    rw [List.find?_eq_none]
    intro fr hfr
    simp only [beq_iff_eq]
    intro heq
    have h3 := getFlakyTests_row_eq d minRuns minRate fr hfr
    exact hc (heq ▸ h3.2)

/-- Lookup after the flaky loop. -/
theorem reportGet_addFlakyStage (d : DBState)
    (rep : List (String × TestReport)) (tid : String) :
    reportGet (addFlakyStage d rep) tid =
      if flakyCond d tid 2 (1/10) = true
      then (reportGet rep tid).map (flakyUpdate (mkFlakyRow d tid))
      else reportGet rep tid := by
  rw [addFlakyStage,
    reportGet_foldl_flaky _ (flaky_keys_pairwise d 2 (1/10)),
    find?_getFlakyTests]
  by_cases hc : flakyCond d tid 2 (1/10) = true
  · rw [if_pos hc, if_pos hc]
  · rw [if_neg hc, if_neg hc]

/-- The first key equal to tid in any list of keys. -/
theorem find?_beq_self (l : List String) (tid : String) :
    l.find? (fun t => t == tid) = if tid ∈ l then some tid else none := by
  induction l with
  | nil => simp
  | cons t ts ih =>
    by_cases h : t = tid
    · subst h
      rw [List.find?_cons_of_pos _ (by simp), if_pos (List.mem_cons_self _ _)]
    · rw [List.find?_cons_of_neg _ (by simp [beq_iff_eq, h]), ih]
      by_cases hm : tid ∈ ts
      · rw [if_pos hm, if_pos (List.mem_cons_of_mem _ hm)]
      · rw [if_neg hm,
          if_neg (fun hc => (List.mem_cons.1 hc).elim (fun h1 => h h1.symm) hm)]

/-- Lookup after the performance loop. -/
theorem reportGet_addPerfStage (d : DBState)
    (rep : List (String × TestReport)) (tid : String) :
    reportGet (addPerfStage d rep) tid =
      if tid ∈ testIds d
      then (reportGet rep tid).map (perfUpdate (perfStatsFor d tid))
      else reportGet rep tid := by
  rw [addPerfStage, reportGet_foldl_perf d _ (testIds_nodup d),
    find?_beq_self]
  by_cases hm : tid ∈ testIds d
  · rw [if_pos hm, if_pos hm]
  · rw [if_neg hm, if_neg hm]

/-- Lookup of one entry of the full report: a test_id with a group maps
to its final entry, any other test_id is absent. -/
theorem reportGet_final (d : DBState) (tid : String) :
    reportGet (generateSummaryJson d) tid =
      if tid ∈ testIds d then some (finalEntry d tid) else none := by
  rw [generateSummaryJson, reportGet_addPerfStage, reportGet_addFlakyStage,
    reportGet_addHistoryStage, reportGet_summaryLoop]
  by_cases hm : tid ∈ testIds d
  · rw [if_pos hm, if_pos hm, if_pos hm, finalEntry]
    by_cases hc : flakyCond d tid 2 (1/10) = true
    · rw [if_pos hc, if_pos hc]
      simp only [Option.map_some']
      rfl
    · rw [if_neg hc, if_neg hc]
      simp only [Option.map_some']
      rfl
  · rw [if_neg hm, if_neg hm, if_neg hm]
    simp only [Option.map_none']
    by_cases hc : flakyCond d tid 2 (1/10) = true
    · rw [if_pos hc]
    · rw [if_neg hc]

/-- None of the later loops touches last_failure. -/
theorem finalEntry_last_failure (d : DBState) (tid : String) :
    (finalEntry d tid).last_failure =
      (entryFromRow d tid (chosenJoinRow d tid)).last_failure := by
  rw [finalEntry]
  by_cases hc : flakyCond d tid 2 (1/10) = true
  · rw [if_pos hc]
    rfl
  · rw [if_neg hc]
    rfl

/-- The avg_duration placeholder of the analytics block stays 0. -/
theorem finalEntry_avg_duration (d : DBState) (tid : String) :
    (finalEntry d tid).analytics.avg_duration = 0 := by
  rw [finalEntry]
  by_cases hc : flakyCond d tid 2 (1/10) = true
  · rw [if_pos hc]
    rfl
  · rw [if_neg hc]
    rfl

/-- Every final entry carries the performance block of its group. -/
theorem finalEntry_performance (d : DBState) (tid : String) :
    (finalEntry d tid).analytics.performance = some (perfStatsFor d tid) := by
  rw [finalEntry]
  by_cases hc : flakyCond d tid 2 (1/10) = true
  · rw [if_pos hc]
    rfl
  · rw [if_neg hc]
    rfl

/-- Every final entry carries the history of its own test_id. -/
theorem finalEntry_history (d : DBState) (tid : String) :
    (finalEntry d tid).history = getTestHistory d tid 5 := by
  rw [finalEntry]
  by_cases hc : flakyCond d tid 2 (1/10) = true
  · rw [if_pos hc]
    rfl
  · rw [if_neg hc]
    rfl

/-- Inversion of a successful insert: all three constraints hold and the
new state appends exactly one row with the next result_id. -/
theorem addTestResult_ok_shape (d : DBState) (rid : Nat)
    (tid : Option String) (st : String) (dur : Rat) (em tb : Option String)
    (now : Nat) (d' : DBState)
    (h : addTestResult d rid tid st dur em tb now = .ok d') :
    d.runs.any (fun r => r.run_id == rid) = true ∧
    tid.isNone = false ∧ validStatus st = true ∧
    d' = { d with
      results := d.results ++ [newResultRow d rid tid st dur em tb now],
      resultSeq := d.resultSeq + 1 } := by
  rw [addTestResult] at h
  by_cases hb1 : d.runs.any (fun r => r.run_id == rid) = true
  · rw [if_neg (not_not_intro hb1)] at h
    by_cases hb2 : tid.isNone = true
    · rw [if_pos hb2] at h
      exact Except.noConfusion h
    · rw [if_neg hb2] at h
      by_cases hb3 : validStatus st = true
      · rw [if_neg (not_not_intro hb3)] at h
        injection h with h4
        exact ⟨hb1, Bool.not_eq_true _ ▸ hb2, hb3, h4.symm⟩
      · rw [if_pos hb3] at h
        exact Except.noConfusion h
  · rw [if_pos hb1] at h
    exact Except.noConfusion h

/-- The insert fails exactly when the run reference is dangling, the
test_id is NULL, or the status is outside the enumeration. -/
theorem addTestResult_error_iff (d : DBState) (rid : Nat)
    (tid : Option String) (st : String) (dur : Rat) (em tb : Option String)
    (now : Nat) :
    (∃ er, addTestResult d rid tid st dur em tb now = .error er) ↔
      (¬ (∃ run ∈ d.runs, run.run_id = rid) ∨ tid = none ∨
        ¬ validStatus st = true) := by
  rw [addTestResult]
  by_cases hb1 : d.runs.any (fun r => r.run_id == rid) = true
  · rw [if_neg (not_not_intro hb1)]
    by_cases hb2 : tid.isNone = true
    · rw [if_pos hb2]
      constructor
      · intro _
        exact Or.inr (Or.inl (Option.isNone_iff_eq_none.1 hb2))
      · intro _
        exact ⟨_, rfl⟩
    · rw [if_neg hb2]
      by_cases hb3 : validStatus st = true
      · rw [if_neg (not_not_intro hb3)]
        constructor
        · rintro ⟨er, her⟩
          exact Except.noConfusion her
        · rintro (hc | hc | hc)
          · obtain ⟨run, hrun, hpr⟩ := List.any_eq_true.1 hb1
            exact absurd ⟨run, hrun, by simpa [beq_iff_eq] using hpr⟩ hc
          · exact absurd (Option.isNone_iff_eq_none.2 hc) hb2
          · exact absurd hb3 hc
      · rw [if_pos hb3]
        constructor
        · intro _
          exact Or.inr (Or.inr hb3)
        · intro _
          exact ⟨_, rfl⟩
  · rw [if_pos hb1]
    constructor
    · intro _
      refine Or.inl (fun hex => hb1 ?_)
      obtain ⟨run, hrun, heq⟩ := hex
      exact List.any_eq_true.2 ⟨run, hrun, by simp [beq_iff_eq, heq]⟩
    · intro _
      exact ⟨_, rfl⟩

/-- Applying one call keeps the schema flag. -/
theorem schemaReady_applyOp (d : DBState) (op : Op)
    (h : d.schemaReady = true) : (applyOp d op).schemaReady = true := by
  cases op with
  | startRun pv pyv now => exact h
  | recordResult rid tid st dur em tb now =>
    rw [applyOp]
    cases hres : addTestResult d rid tid st dur em tb now with
    | error e => exact h
    | ok d' =>
      obtain ⟨-, -, -, hd⟩ :=
        addTestResult_ok_shape d rid tid st dur em tb now d' hres
      rw [hd]
      exact h

/-- Folding calls keeps the schema flag. -/
theorem schemaReady_foldl (ops : List Op) (d : DBState)
    (h : d.schemaReady = true) :
    (ops.foldl applyOp d).schemaReady = true := by
  induction ops generalizing d with
  | nil => exact h
  | cons op ops ih => exact ih _ (schemaReady_applyOp d op h)

/-- Every reachable store has the schema flag set. -/
theorem schemaReady_runOps (ops : List Op) :
    (runOps ops).schemaReady = true :=
  schemaReady_foldl ops _ rfl

/-- Applying one call keeps every stored status inside the enumeration. -/
theorem statusesValid_applyOp (d : DBState) (op : Op)
    (h : ∀ r ∈ d.results, validStatus r.status = true) :
    ∀ r ∈ (applyOp d op).results, validStatus r.status = true := by
  cases op with
  | startRun pv pyv now => exact h
  | recordResult rid tid st dur em tb now =>
    rw [applyOp]
    cases hres : addTestResult d rid tid st dur em tb now with
    | error e => exact h
    | ok d' =>
      obtain ⟨-, -, hval, hd⟩ :=
        addTestResult_ok_shape d rid tid st dur em tb now d' hres
      rw [hd]
      intro r hr
      have hr' : r ∈ d.results ++ [newResultRow d rid tid st dur em tb now] :=
        hr
      rcases List.mem_append.1 hr' with hold | hnew
      · exact h r hold
      · rw [List.mem_singleton] at hnew
        subst hnew
        exact hval

/-- Folding calls keeps every stored status inside the enumeration. -/
theorem statusesValid_foldl (ops : List Op) (d : DBState)
    (h : ∀ r ∈ d.results, validStatus r.status = true) :
    ∀ r ∈ (ops.foldl applyOp d).results, validStatus r.status = true := by
  induction ops generalizing d with
  | nil => exact h
  | cons op ops ih => exact ih _ (statusesValid_applyOp d op h)

/-- Every status a reachable store holds is one of the three values. -/
theorem statusesValid_runOps (ops : List Op) :
    ∀ r ∈ (runOps ops).results, validStatus r.status = true :=
  statusesValid_foldl ops _
    (fun r hr => absurd hr (by simp [initTables, emptyDB]))

/-- Any list of rows all of whose statuses lie in the enumeration is
counted exactly once by the three status counters. -/
theorem length_eq_counts (l : List ResultRow)
    (h : ∀ r ∈ l, validStatus r.status = true) :
    l.length = l.countP (fun r => r.status == "passed") +
      l.countP (fun r => r.status == "failed") +
      l.countP (fun r => r.status == "skipped") := by
  induction l with
  | nil => rfl
  | cons r rs ih =>
    have hr := h r (List.mem_cons_self _ _)
    have htl := ih (fun q hq => h q (List.mem_cons_of_mem _ hq))
    rw [validStatus] at hr
    simp only [Bool.or_eq_true, beq_iff_eq] at hr
    simp only [List.length_cons, List.countP_cons, htl]
    rcases hr with (h1 | h1) | h1 <;> simp [h1] <;> omega

/-- Updating an entry keeps the key sequence. -/
theorem keys_updateEntry (k : String) (f : TestReport → TestReport)
    (rep : List (String × TestReport)) :
    (updateEntry k f rep).map Prod.fst = rep.map Prod.fst := by
  induction rep with
  | nil => rfl
  | cons p rest ih =>
    obtain ⟨k0, v0⟩ := p
    rw [updateEntry]
    by_cases h : k0 = k
    · rw [if_pos h]
      rfl
    · rw [if_neg h]
      rw [List.map_cons, List.map_cons, ih]

/-- The flaky loop keeps the key sequence. -/
theorem keys_foldl_flaky (rows : List FlakyRow)
    (rep : List (String × TestReport)) :
    ((rows.foldl
      (fun acc fr => updateEntry fr.test_id (flakyUpdate fr) acc) rep).map
        Prod.fst) = rep.map Prod.fst := by
  induction rows generalizing rep with
  | nil => rfl
  | cons a as ih =>
    rw [List.foldl_cons, ih, keys_updateEntry]

/-- The performance loop keeps the key sequence. -/
theorem keys_foldl_perf (d : DBState) (rows : List String)
    (rep : List (String × TestReport)) :
    ((rows.foldl
      (fun acc tid => updateEntry tid
        (fun e => perfUpdate (perfStatsFor d tid) e) acc) rep).map
        Prod.fst) = rep.map Prod.fst := by
  induction rows generalizing rep with
  | nil => rfl
  | cons a as ih =>
    rw [List.foldl_cons, ih, keys_updateEntry]

/-- The history loop keeps the key sequence. -/
theorem keys_addHistoryStage (d : DBState)
    (rep : List (String × TestReport)) :
    (addHistoryStage d rep).map Prod.fst = rep.map Prod.fst := by
  rw [addHistoryStage, List.map_map]
  rfl

/-- The summary loop produces the group keys. -/
theorem keys_summaryLoop (d : DBState) :
    (summaryLoop d).map Prod.fst = testIds d := by
  rw [summaryLoop_eq, List.map_map]
  exact List.map_id _

/-- The key sequence of the full report is exactly testIds. -/
theorem keys_generateSummaryJson (d : DBState) :
    (generateSummaryJson d).map Prod.fst = testIds d := by
  rw [generateSummaryJson, addPerfStage, keys_foldl_perf, addFlakyStage,
    keys_foldl_flaky, keys_addHistoryStage, keys_summaryLoop]

/-- C1: for every test_id and thresholds, get_flaky_tests lists the test
exactly when its total results reach min_runs, it has at least one pass
and at least one failure, and failures over total reaches
min_failure_rate; in particular a test whose results are all failures is
never listed. -/
theorem claim_C1 (d : DBState) (tid : String) (minRuns : Nat)
    (minRate : Rat) :
    ((∃ fr ∈ getFlakyTests d minRuns minRate, fr.test_id = tid) ↔
      (minRuns ≤ totalRuns d tid ∧ 0 < passes d tid ∧ 0 < failures d tid ∧
        minRate ≤ failureRate d tid)) ∧
    ((∀ r ∈ resultsFor d tid, r.status = "failed") →
      ¬ ∃ fr ∈ getFlakyTests d minRuns minRate, fr.test_id = tid) := by
  have hiff : (∃ fr ∈ getFlakyTests d minRuns minRate, fr.test_id = tid) ↔
      (minRuns ≤ totalRuns d tid ∧ 0 < passes d tid ∧ 0 < failures d tid ∧
        minRate ≤ failureRate d tid) := by
    constructor
    · rintro ⟨fr, hmem, htid⟩
      have h := getFlakyTests_row_eq d minRuns minRate fr hmem
      have hc := h.2
      rw [htid, flakyCond, decide_eq_true_iff] at hc
      exact hc
    · intro hc
      refine ⟨mkFlakyRow d tid, ?_, rfl⟩
      exact getFlakyTests_mem d minRuns minRate tid
        (by rw [flakyCond, decide_eq_true_iff]; exact hc)
  refine ⟨hiff, fun hall hex => ?_⟩
  have hc := hiff.1 hex
  have hpos : 0 < (resultsFor d tid).countP (fun r => r.status == "passed") :=
    hc.2.1
  obtain ⟨p, hp, hps⟩ := List.countP_pos_iff.1 hpos
  have hpass : p.status = "passed" := by simpa [beq_iff_eq] using hps
  exact absurd (hpass.symm.trans (hall p hp)) (by decide)

/-- C1 witness: in the concrete store the flaky test is listed and the
always-failing test is not. -/
theorem claim_C1_witness :
    (∃ fr ∈ getFlakyTests wdb 2 (1/10), fr.test_id = "test_flaky") ∧
    ¬ ∃ fr ∈ getFlakyTests wdb 2 (1/10), fr.test_id = "test_failing" := by
  constructor
  · refine (claim_C1 wdb "test_flaky" 2 (1/10)).1.mpr
      ⟨by decide, by decide, by decide, ?_⟩
    have h1 : failures wdb "test_flaky" = 1 := by decide
    have h2 : totalRuns wdb "test_flaky" = 3 := by decide
    rw [failureRate, h1, h2]
    norm_num
  · exact (claim_C1 wdb "test_failing" 2 (1/10)).2 (by decide)

/-- C3: over any call sequence, the total of a summarized test_id equals
passes plus failures plus skips exactly. -/
theorem claim_C3 (ops : List Op) (tid : String)
    (_h : ∃ r ∈ (runOps ops).results, r.test_id = tid) :
    totalRuns (runOps ops) tid =
      passes (runOps ops) tid + failures (runOps ops) tid +
        skips (runOps ops) tid :=
  length_eq_counts _ (fun r hr =>
    statusesValid_runOps ops r (List.mem_filter.1 hr).1)

/-- C3 witness: a concrete call sequence with accepted and rejected
inserts balances its counters. -/
theorem claim_C3_witness :
    (∃ r ∈ (runOps wOps).results, r.test_id = "t") ∧
    totalRuns (runOps wOps) "t" =
      passes (runOps wOps) "t" + failures (runOps wOps) "t" +
        skips (runOps wOps) "t" :=
  ⟨by decide, claim_C3 wOps "t" (by decide)⟩

/-- C7: re-running the initialization step on any already-initialized
storage location is the identity: every Run row, every Result row and
both sequence counters are unchanged.  Every store reached from a fresh
location is initialized (schemaReady_runOps), so this covers every
populated location. -/
theorem claim_C7 (d : DBState) (h : d.schemaReady = true) :
    initTables d = d := by
  rw [initTables, if_pos h]

/-- C7 witness: the populated concrete store is untouched, and so is a
store reached by a concrete call sequence. -/
theorem claim_C7_witness :
    initTables wdb = wdb ∧ initTables (runOps wOps) = runOps wOps :=
  ⟨claim_C7 wdb (by rfl), claim_C7 (runOps wOps) (by decide)⟩

/-- C8: the analytics.avg_duration field of every report entry is 0
regardless of the recorded durations; the actual duration statistics sit
only in the separate analytics.performance block. -/
theorem claim_C8 (d : DBState) (tid : String) (e : TestReport)
    (h : reportGet (generateSummaryJson d) tid = some e) :
    e.analytics.avg_duration = 0 ∧
    e.analytics.performance = some (perfStatsFor d tid) := by
  rw [reportGet_final] at h
  by_cases hm : tid ∈ testIds d
  · rw [if_pos hm] at h
    injection h with h1
    subst h1
    exact ⟨finalEntry_avg_duration d tid, finalEntry_performance d tid⟩
  · rw [if_neg hm] at h
    exact Option.noConfusion h

/-- C8 witness: the concrete entry of the stable test has placeholder 0
and a populated performance block. -/
theorem claim_C8_witness :
    (finalEntry wdb "test_stable").analytics.avg_duration = 0 ∧
    (finalEntry wdb "test_stable").analytics.performance =
      some (perfStatsFor wdb "test_stable") :=
  claim_C8 wdb "test_stable" (finalEntry wdb "test_stable")
    (by rw [reportGet_final, if_pos (by decide)])

/-- C9: the report has exactly one entry per test_id with at least one
Result: its key sequence is exactly the duplicate-free group list, and a
test_id is a group exactly when it has a Result, however many join rows
the last-failure join produced. -/
theorem claim_C9 (d : DBState) :
    (generateSummaryJson d).map Prod.fst = testIds d ∧
    (testIds d).Nodup ∧
    (∀ tid, tid ∈ testIds d ↔ ∃ r ∈ d.results, r.test_id = tid) :=
  ⟨keys_generateSummaryJson d, testIds_nodup d,
    fun tid => mem_testIds d tid⟩

/-- C10: every report entry carries a populated performance block whose
fields are the average, a minimum and a maximum of the durations of its
nonempty group. -/
theorem claim_C10 (d : DBState) (tid : String) (e : TestReport)
    (h : reportGet (generateSummaryJson d) tid = some e) :
    ∃ p, e.analytics.performance = some p ∧
      resultsFor d tid ≠ [] ∧
      p.avg_duration =
        sumDurations (resultsFor d tid) /
          ((resultsFor d tid).length : Rat) ∧
      p.min_duration ∈ (resultsFor d tid).map (fun r => r.duration) ∧
      (∀ q ∈ (resultsFor d tid).map (fun r => r.duration),
        p.min_duration ≤ q) ∧
      p.max_duration ∈ (resultsFor d tid).map (fun r => r.duration) ∧
      (∀ q ∈ (resultsFor d tid).map (fun r => r.duration),
        q ≤ p.max_duration) := by
  rw [reportGet_final] at h
  by_cases hm : tid ∈ testIds d
  swap
  · rw [if_neg hm] at h
    exact Option.noConfusion h
  rw [if_pos hm] at h
  injection h with h1
  subst h1
  have hne : resultsFor d tid ≠ [] := by
    obtain ⟨r, hr, hrt⟩ := (mem_testIds d tid).1 hm
    intro hnil
    have hmem : r ∈ resultsFor d tid :=
      List.mem_filter.2 ⟨hr, by simp [beq_iff_eq, hrt]⟩
    rw [hnil] at hmem
    exact absurd hmem (List.not_mem_nil r)
  have hmapne : (resultsFor d tid).map (fun r => r.duration) ≠ [] := by
    intro hc
    exact hne (List.map_eq_nil_iff.1 hc)
  obtain ⟨mn, hmn⟩ : ∃ mn,
      ((resultsFor d tid).map (fun r => r.duration)).min? = some mn := by
    cases hc : ((resultsFor d tid).map (fun r => r.duration)).min? with
    | some mn => exact ⟨mn, rfl⟩
    | none => exact absurd (List.min?_eq_none_iff.1 hc) hmapne
  obtain ⟨mx, hmx⟩ : ∃ mx,
      ((resultsFor d tid).map (fun r => r.duration)).max? = some mx := by
    cases hc : ((resultsFor d tid).map (fun r => r.duration)).max? with
    | some mx => exact ⟨mx, rfl⟩
    | none => exact absurd (List.max?_eq_none_iff.1 hc) hmapne
  have heqmn : (perfStatsFor d tid).min_duration = mn := by
    show minDuration d tid = mn
    rw [minDuration, hmn]
    rfl
  have heqmx : (perfStatsFor d tid).max_duration = mx := by
    show maxDuration d tid = mx
    rw [maxDuration, hmx]
    rfl
  refine ⟨perfStatsFor d tid, finalEntry_performance d tid, hne, rfl,
    ?_, ?_, ?_, ?_⟩
  · rw [heqmn]
    exact List.min?_mem min_choice hmn
  · rw [heqmn]
    intro q hq
    exact ((List.le_min?_iff (fun _ _ _ => le_min_iff) hmn).1 le_rfl) q hq
  · rw [heqmx]
    exact List.max?_mem max_choice hmx
  · rw [heqmx]
    intro q hq
    exact ((List.max?_le_iff (fun _ _ _ => max_le_iff) hmx).1 le_rfl) q hq

/-- C10 witness: the concrete entry of the flaky test carries the
populated performance block with attained bounds. -/
theorem claim_C10_witness :
    ∃ p, (finalEntry wdb "test_flaky").analytics.performance = some p ∧
      resultsFor wdb "test_flaky" ≠ [] ∧
      p.avg_duration =
        sumDurations (resultsFor wdb "test_flaky") /
          ((resultsFor wdb "test_flaky").length : Rat) ∧
      p.min_duration ∈ (resultsFor wdb "test_flaky").map
        (fun r => r.duration) ∧
      (∀ q ∈ (resultsFor wdb "test_flaky").map (fun r => r.duration),
        p.min_duration ≤ q) ∧
      p.max_duration ∈ (resultsFor wdb "test_flaky").map
        (fun r => r.duration) ∧
      (∀ q ∈ (resultsFor wdb "test_flaky").map (fun r => r.duration),
        q ≤ p.max_duration) :=
  claim_C10 wdb "test_flaky" (finalEntry wdb "test_flaky")
    (by rw [reportGet_final, if_pos (by decide)])

/-- C2 counterexample: in c2db the unique failed result of test t has
error message boom and traceback tb, yet the report's last_failure
carries message and traceback of the later passed result sharing the
same timestamp, i.e. none: the join matches on timestamp only, not on
status. -/
theorem claim_C2_counterexample :
    (∀ r ∈ c2db.results, r.status = "failed" → r = c2fail) ∧
    c2fail.error_message = some "boom" ∧
    c2fail.timestamp = 5 ∧
    (reportGet (generateSummaryJson c2db) "t").map
        (fun e => e.last_failure) =
      some (some ⟨5, none, none⟩) := by
  refine ⟨by decide, rfl, rfl, ?_⟩
  rw [reportGet_final, if_pos (by decide), Option.map_some',
    finalEntry_last_failure]
  decide

/-- C2 amended: for a test_id with at least one failed Result, the
last_failure timestamp is the maximal failed recorded_at, and its error
message and traceback are those of the LAST log row of that test_id (of
any status) whose recorded_at equals that maximum; for a test_id with no
failed Result, last_failure is absent. -/
theorem claim_C2_amended (d : DBState) (tid : String)
    (hmem : ∃ r ∈ d.results, r.test_id = tid) :
    ∃ e, reportGet (generateSummaryJson d) tid = some e ∧
      ((¬ ∃ r ∈ d.results, r.test_id = tid ∧ r.status = "failed") →
        e.last_failure = none) ∧
      (∀ r0 ∈ d.results, r0.test_id = tid → r0.status = "failed" →
        ∃ lf jr, e.last_failure = some lf ∧
          (∃ r ∈ d.results, r.test_id = tid ∧ r.status = "failed" ∧
            r.timestamp = lf.timestamp) ∧
          (∀ r ∈ d.results, r.test_id = tid → r.status = "failed" →
            r.timestamp ≤ lf.timestamp) ∧
          (d.results.filter (fun r =>
            r.test_id == tid && r.timestamp == lf.timestamp)).getLast? =
            some jr ∧
          lf.error_message = jr.error_message ∧
          lf.traceback = splitTraceback jr.error_traceback) := by
  have hmemt : tid ∈ testIds d := (mem_testIds d tid).2 hmem
  refine ⟨finalEntry d tid, by rw [reportGet_final, if_pos hmemt], ?_, ?_⟩
  · intro hnone
    have hlf : lastFailure d tid = none := by
      rw [lastFailure, List.max?_eq_none_iff, List.map_eq_nil_iff,
        List.filter_eq_nil_iff]
      intro r hr
      simp only [beq_iff_eq]
      intro hst
      rw [resultsFor, List.mem_filter] at hr
      exact hnone ⟨r, hr.1, by simpa [beq_iff_eq] using hr.2, hst⟩
    rw [finalEntry_last_failure, entryFromRow]
    simp only [hlf]
  · intro r0 hr0 hr0t hr0s
    have hr0mem : r0 ∈ (resultsFor d tid).filter
        (fun r => r.status == "failed") := by
      refine List.mem_filter.2 ⟨?_, by simp [beq_iff_eq, hr0s]⟩
      exact List.mem_filter.2 ⟨hr0, by simp [beq_iff_eq, hr0t]⟩
    have hmap : r0.timestamp ∈ ((resultsFor d tid).filter
        (fun r => r.status == "failed")).map (fun r => r.timestamp) :=
      List.mem_map_of_mem _ hr0mem
    obtain ⟨lfts, hlf⟩ : ∃ x, lastFailure d tid = some x := by
      cases hc : lastFailure d tid with
      | some x => exact ⟨x, rfl⟩
      | none =>
        rw [lastFailure, List.max?_eq_none_iff] at hc
        rw [hc] at hmap
        exact absurd hmap (List.not_mem_nil _)
    have hlfmax : (((resultsFor d tid).filter
        (fun r => r.status == "failed")).map
          (fun r => r.timestamp)).max? = some lfts := by
      rw [lastFailure] at hlf
      exact hlf
    have hattain := List.max?_mem max_choice hlfmax
    obtain ⟨ra, hra, hrats⟩ := List.mem_map.1 hattain
    have hrafail : ra.status = "failed" := by
      have := (List.mem_filter.1 hra).2
      simpa [beq_iff_eq] using this
    have hramem : ra ∈ d.results ∧ ra.test_id = tid := by
      have := List.mem_filter.1 (List.mem_filter.1 hra).1
      exact ⟨this.1, by simpa [beq_iff_eq] using this.2⟩
    have hjoin_ne : d.results.filter (fun r =>
        r.test_id == tid && r.timestamp == lfts) ≠ [] := by
      intro hc
      rw [List.filter_eq_nil_iff] at hc
      exact hc ra hramem.1
        (by simp [beq_iff_eq, hramem.2, hrats])
    obtain ⟨jr, hjr⟩ : ∃ jr, (d.results.filter (fun r =>
        r.test_id == tid && r.timestamp == lfts)).getLast? = some jr := by
      cases hc : (d.results.filter (fun r =>
          r.test_id == tid && r.timestamp == lfts)).getLast? with
      | some jr => exact ⟨jr, rfl⟩
      | none => exact absurd (List.getLast?_eq_none_iff.1 hc) hjoin_ne
    have hchosen : chosenJoinRow d tid = some jr := by
      rw [chosenJoinRow, joinRowsFor, hlf]
      exact hjr
    refine ⟨⟨lfts, splitTraceback (jr.error_traceback), jr.error_message⟩,
      jr, ?_, ?_, ?_, hjr, rfl, rfl⟩
    · rw [finalEntry_last_failure, entryFromRow]
      simp only [hlf, hchosen, Option.some_bind]
    · exact ⟨ra, hramem.1, hramem.2, hrafail, hrats⟩
    · intro r hr hrt hrs
      refine ((List.max?_le_iff (fun _ _ _ => max_le_iff) hlfmax).1
        le_rfl) r.timestamp ?_
      refine List.mem_map_of_mem _ (List.mem_filter.2 ⟨?_, ?_⟩)
      · exact List.mem_filter.2 ⟨hr, by simp [beq_iff_eq, hrt]⟩
      · simp [beq_iff_eq, hrs]

/-- C2 amended witness: the amended statement instantiated at the
concrete tied store. -/
theorem claim_C2_amended_witness :
    ∃ e, reportGet (generateSummaryJson c2db) "t" = some e ∧
      ((¬ ∃ r ∈ c2db.results, r.test_id = "t" ∧ r.status = "failed") →
        e.last_failure = none) ∧
      (∀ r0 ∈ c2db.results, r0.test_id = "t" → r0.status = "failed" →
        ∃ lf jr, e.last_failure = some lf ∧
          (∃ r ∈ c2db.results, r.test_id = "t" ∧ r.status = "failed" ∧
            r.timestamp = lf.timestamp) ∧
          (∀ r ∈ c2db.results, r.test_id = "t" → r.status = "failed" →
            r.timestamp ≤ lf.timestamp) ∧
          (c2db.results.filter (fun r =>
            r.test_id == "t" && r.timestamp == lf.timestamp)).getLast? =
            some jr ∧
          lf.error_message = jr.error_message ∧
          lf.traceback = splitTraceback jr.error_traceback) :=
  claim_C2_amended c2db "t" (by decide)

/-- C4 counterexample: two results of test t with equal recorded_at come
back from get_test_history in ascending result_id (insertion) order, not
in the descending order the claim asserts for ties. -/
theorem claim_C4_counterexample :
    c4row1.timestamp = c4row2.timestamp ∧
    c4row1.result_id < c4row2.result_id ∧
    c4db.results = [c4row1, c4row2] ∧
    (getTestHistoryRows c4db "t" 10).map (fun r => r.result_id) =
      [1, 2] := by
  refine ⟨rfl, by decide, rfl, by decide⟩

/-- C4 amended: get_test_history returns at most limit rows, ordered by
recorded_at descending with ties kept in insertion order (ascending
result_id, the stable-sort order), and returns the empty sequence for an
unknown test_id. -/
theorem claim_C4_amended (d : DBState) (tid : String) (limit : Nat)
    (hmono : List.Pairwise (fun a b => a.result_id < b.result_id)
      d.results) :
    (getTestHistoryRows d tid limit).length ≤ limit ∧
    List.Pairwise (fun a b => b.timestamp ≤ a.timestamp ∧
      (a.timestamp = b.timestamp → a.result_id < b.result_id))
      (getTestHistoryRows d tid limit) ∧
    ((¬ ∃ r ∈ d.results, r.test_id = tid) →
      getTestHistoryRows d tid limit = []) := by
  refine ⟨List.length_take_le _ _, ?_, ?_⟩
  · have h1 := pairwise_sortByTsDesc (resultsFor d tid)
    have hmono' : List.Pairwise (fun a b => a.result_id < b.result_id)
        (resultsFor d tid) :=
      List.Pairwise.sublist (List.filter_sublist d.results) hmono
    have h2 := pairwise_tie_sortByTsDesc hmono'
    exact List.Pairwise.sublist (List.take_sublist _ _) (h1.and h2)
  · intro hnone
    have hempty : resultsFor d tid = [] := by
      rw [resultsFor, List.filter_eq_nil_iff]
      intro r hr
      simp only [beq_iff_eq]
      intro hc
      exact hnone ⟨r, hr, hc⟩
    rw [getTestHistoryRows, hempty]
    simp [sortByTsDesc]

/-- C4 amended witness: the amended ordering statement at the concrete
tied store. -/
theorem claim_C4_amended_witness :
    (getTestHistoryRows c4db "t" 10).length ≤ 10 ∧
    List.Pairwise (fun a b => b.timestamp ≤ a.timestamp ∧
      (a.timestamp = b.timestamp → a.result_id < b.result_id))
      (getTestHistoryRows c4db "t" 10) ∧
    ((¬ ∃ r ∈ c4db.results, r.test_id = "t") →
      getTestHistoryRows c4db "t" 10 = []) :=
  claim_C4_amended c4db "t" 10 (by decide)

/-- C5 counterexample: an insert with the empty-string test_id does not
fail; it appends a row, because NOT NULL rejects only NULL. -/
theorem claim_C5_counterexample :
    addTestResult c5db 1 (some "") "passed" 1 none none 7 =
      .ok c5dbAfter := by
  rfl

/-- C5 amended: record_result fails with ConstraintViolation exactly
when run_id references no existing Run, test_id is absent (NULL), or
status is outside the enumeration; the empty string is an accepted
test_id; a successful call appends exactly one new row. -/
theorem claim_C5_amended (d : DBState) (rid : Nat) (tid : Option String)
    (st : String) (dur : Rat) (em tb : Option String) (now : Nat) :
    ((∃ er, addTestResult d rid tid st dur em tb now = .error er) ↔
      (¬ (∃ run ∈ d.runs, run.run_id = rid) ∨ tid = none ∨
        ¬ validStatus st = true)) ∧
    (∀ er, addTestResult d rid tid st dur em tb now = .error er →
      (∃ msg, er = .constraintViolation msg) ∧
      applyOp d (.recordResult rid tid st dur em tb now) = d) ∧
    (∀ d', addTestResult d rid tid st dur em tb now = .ok d' →
      d'.results = d.results ++ [newResultRow d rid tid st dur em tb now] ∧
      d'.runs = d.runs) := by
  refine ⟨addTestResult_error_iff d rid tid st dur em tb now, ?_, ?_⟩
  · intro er her
    refine ⟨?_, ?_⟩
    · cases er with
      | constraintViolation msg => exact ⟨msg, rfl⟩
    · rw [applyOp, her]
  · intro d' hd'
    obtain ⟨-, -, -, hd⟩ :=
      addTestResult_ok_shape d rid tid st dur em tb now d' hd'
    rw [hd]
    exact ⟨rfl, rfl⟩

/-- C5 amended witness: a dangling run_id is rejected. -/
theorem claim_C5_amended_witness :
    ∃ er, addTestResult c5db 99 (some "x") "passed" 1 none none 7 =
      .error er :=
  (claim_C5_amended c5db 99 (some "x") "passed" 1 none none 7).1.mpr
    (Or.inl (by decide))

/-- C6 counterexample: inserting a failed result whose recorded_at ties
with an earlier result of the same test makes the earlier row, not the
inserted one, the newest history entry: the read-back status, duration
and message differ from what was inserted. -/
theorem claim_C6_counterexample :
    addTestResult c6db 1 (some "t") "failed" 2 (some "boom") none 5 =
      .ok c6dbAfter ∧
    (getTestHistory c6dbAfter "t" 10).head? =
      some ⟨5, "passed", 1, none⟩ := by
  exact ⟨by rfl, by decide⟩

/-- C6 amended: when the inserted recorded_at is strictly newer than
every prior result of that test_id, the newest history entry carries the
inserted status, duration and error message (history entries do not
include the traceback at all). -/
theorem claim_C6_amended (d : DBState) (rid : Nat) (tid : String)
    (st : String) (dur : Rat) (em tb : Option String) (now : Nat)
    (limit : Nat) (d' : DBState)
    (hok : addTestResult d rid (some tid) st dur em tb now = .ok d')
    (hfresh : ∀ r ∈ d.results, r.test_id = tid → r.timestamp < now)
    (hlim : 1 ≤ limit) :
    (getTestHistory d' tid limit).head? = some ⟨now, st, dur, em⟩ := by
  obtain ⟨-, -, -, hd⟩ :=
    addTestResult_ok_shape d rid (some tid) st dur em tb now d' hok
  have hres : resultsFor d' tid =
      resultsFor d tid ++ [newResultRow d rid (some tid) st dur em tb now] := by
    rw [hd]
    show (d.results ++
      [newResultRow d rid (some tid) st dur em tb now]).filter
        (fun r => r.test_id == tid) = _
    rw [List.filter_append]
    rw [resultsFor]
    congr 1
    simp [newResultRow]
  rw [getTestHistory, getTestHistoryRows, hres]
  obtain ⟨rest, hsort⟩ := sortByTsDesc_append_max
    (l := resultsFor d tid)
    (r := newResultRow d rid (some tid) st dur em tb now)
    (fun x hx => hfresh x (List.mem_filter.1 hx).1
      (by simpa [beq_iff_eq] using (List.mem_filter.1 hx).2))
  rw [hsort]
  cases limit with
  | zero => exact absurd hlim (by decide)
  | succ n =>
    rw [List.take_succ_cons, List.map_cons, List.head?_cons]
    rfl

/-- C6 amended witness: the strictly newer insert round-trips through
the newest history entry. -/
theorem claim_C6_amended_witness :
    (getTestHistory c6dbAfter9 "t" 10).head? =
      some ⟨9, "failed", 2, some "boom"⟩ :=
  claim_C6_amended c6db 1 "t" "failed" 2 (some "boom") none 9 10 c6dbAfter9
    (by rfl) (by decide) (by decide)

end PytestFailureTracker
